import Mathlib

/-!
Shallow embedding of `src/strategies.mts` of the `ts-service-worker` repository.

Plan entries are plain JavaScript objects carrying a `strategy` discriminant plus
optional `paths`, `files` and `backup` fields; the source inspects them only through
the guard functions embedded below.  JavaScript strings are modelled as Lean
`String`, arrays as `List`, absent fields as `none`, and an exception escaping a
function as `Except.error`.
-/

/-- The value of a `paths` field of a `cache-on-install` entry: `string | Array<string>`. -/
inductive PathsVal where
  | str (s : String)
  | arr (l : List String)
deriving DecidableEq

/-- Modelled from the spec: the files-spec consumed by the File-Glob Resolver is a
record `{dir, glob, prefix}` (spec section 6); its type lives in `filesSpecToPaths.mjs`,
which is not among the examined sources.  Only its identity matters to the claims. -/
structure FilesSpec where
  dir : String
  glob : String
  pfx : String
deriving DecidableEq

/-- A plan entry, structurally: the source's guards test the `strategy` discriminant and
the presence (`'paths' in s`, `'files' in s`) or truthiness (`!!s.paths`, `!!s.backup`)
of fields, so an entry is a record of the discriminant plus the three optional fields
the source ever reads; `none` models an absent field. -/
structure StrategyEntry where
  strategy : String
  paths : Option PathsVal := none
  files : Option FilesSpec := none
  backup : Option String := none
deriving DecidableEq

/-- Guard `isCacheFileOnInstall`: `s.strategy === 'cache-on-install' && 'files' in s`. -/
def isCacheFileOnInstall (s : StrategyEntry) : Bool :=
  s.strategy == "cache-on-install" && s.files.isSome

/-- Guard `isCachePathOnInstall`: `s.strategy === 'cache-on-install' && 'paths' in s`. -/
def isCachePathOnInstall (s : StrategyEntry) : Bool :=
  s.strategy == "cache-on-install" && s.paths.isSome

/-- JS truthiness (`!!`) of a possibly-absent `paths` value: `undefined` and `""` are
falsy; every array, even an empty one, is an object and hence truthy. -/
def truthyPaths : Option PathsVal → Bool
  | none => false
  | some (PathsVal.str s) => !s.isEmpty
  | some (PathsVal.arr _) => true

/-- JS truthiness (`!!`) of a possibly-absent string field. -/
def truthyString : Option String → Bool
  | none => false
  | some s => !s.isEmpty

/-- Guard `isStaticOfflineBackup`: `s.strategy === 'staticOfflineBackup' && !!s.paths && !!s.backup`. -/
def isStaticOfflineBackup (s : StrategyEntry) : Bool :=
  s.strategy == "staticOfflineBackup" && truthyPaths s.paths && truthyString s.backup

/-- Guard `isRoutableStrategy`: the five routable discriminants. -/
def isRoutableStrategy (s : StrategyEntry) : Bool :=
  s.strategy == "cacheFirst"
    || s.strategy == "networkFirst"
    || s.strategy == "networkOnly"
    || s.strategy == "staleWhileRevalidate"
    || s.strategy == "staticOfflineBackup"

/-- One element's contribution under `Array.prototype.flat()` at depth 1: an array
element is spliced in, a plain string stays as a single element. -/
def flatOne : PathsVal → List String
  | PathsVal.str s => [s]
  | PathsVal.arr l => l

/-- Embeds `plan.filter(isCachePathOnInstall).map(s => s.paths).flat()`.  The filter guarantees
`paths` is present, so the `getD` default is unreachable. -/
def cacheOnInstallPathsOf (plan : List StrategyEntry) : List String :=
  (((plan.filter isCachePathOnInstall).map fun s => s.paths.getD (PathsVal.arr [])).map
    flatOne).flatten

/-- Embeds `plan.filter(isStaticOfflineBackup).map(s => s.backup)`.  The filter guarantees
`backup` is a non-empty string, so the `getD` default is unreachable. -/
def backupPathsOf (plan : List StrategyEntry) : List String :=
  (plan.filter isStaticOfflineBackup).map fun s => s.backup.getD ""

/-- The contents of the `cacheOnInstallPaths` array right after
`cacheOnInstallPaths.push(...backupPaths)`. -/
def collectedPreloadPaths (plan : List StrategyEntry) : List String :=
  cacheOnInstallPathsOf plan ++ backupPathsOf plan

/-- A `Decidable` instance for `String`'s order that the kernel can evaluate
(the default one runs through `String.ltb`, whose well-founded recursion does not
reduce); used so that concrete runs of the sort below can be checked by `decide`. -/
def strLE : DecidableRel (fun a b : String => a ≤ b) := fun a b =>
  decidable_of_iff (a.toList ≤ b.toList) String.le_iff_toList_le.symm

/-- Embeds `extractAllPreloadPaths`: collect, push, then `.sort()`.  JS `Array.prototype.sort()`
without a comparator orders strings lexicographically; on strings any comparison sort
returns the same list, modelled here with `List.insertionSort` on `String`'s order. -/
def extractAllPreloadPaths (plan : List StrategyEntry) : List String :=
  @List.insertionSort String (fun a b => a ≤ b) strLE (collectedPreloadPaths plan)

/-- The entry `{strategy: 'cache-on-install', paths}` built by
`convertPreloadFilesToPaths` from the resolver's output. -/
def filesResolvedEntry (ps : List String) : StrategyEntry :=
  { strategy := "cache-on-install", paths := some (PathsVal.arr ps) }

/-- Embeds `convertPreloadFilesToPaths(strategy)`: call the glob resolver on `strategy.files`
and rebuild the entry around its output.  The resolver `filesSpecToPaths` is external
code (`filesSpecToPaths.mjs`, not among the examined sources); per the spec it is a
synchronous function that returns concrete paths and raises on I/O error, so it is
passed in as a parameter of type `FilesSpec → Except String (List String)`.  Callers
guarantee `files` is present, so the `getD` default is unreachable. -/
def convertPreloadFilesToPaths (resolver : FilesSpec → Except String (List String))
    (s : StrategyEntry) : Except String StrategyEntry :=
  match resolver (s.files.getD ⟨"", "", ""⟩) with
  | Except.error e => Except.error e
  | Except.ok ps => Except.ok (filesResolvedEntry ps)

/-- Embeds `convertPreloadFiles(strategy)`: resolve a files-based cache-on-install entry,
pass every other entry through unchanged. -/
def convertPreloadFiles (resolver : FilesSpec → Except String (List String))
    (s : StrategyEntry) : Except String StrategyEntry :=
  if isCacheFileOnInstall s then convertPreloadFilesToPaths resolver s
  else Except.ok s

/-- Models `Array.prototype.map` with a callback that may throw: elements are processed in
index order and the first exception aborts the whole map with no partial result
observable by the caller. -/
def mapExcept (f : α → Except ε β) : List α → Except ε (List β)
  | [] => Except.ok []
  | a :: as =>
    match f a with
    | Except.error e => Except.error e
    | Except.ok b =>
      match mapExcept f as with
      | Except.error e => Except.error e
      | Except.ok bs => Except.ok (b :: bs)

/-- Embeds `convertAllFilesToPaths(spec)`: `spec.map(convertPreloadFiles)`. -/
def convertAllFilesToPaths (resolver : FilesSpec → Except String (List String))
    (spec : List StrategyEntry) : Except String (List StrategyEntry) :=
  mapExcept (convertPreloadFiles resolver) spec

/-- Embeds `convertPreloadPathsToCacheFirst(spec)`: keep routable entries, and turn every
non-routable entry into `{strategy: 'cacheFirst', paths: s.paths}`. -/
def convertPreloadPathsToCacheFirst (spec : List StrategyEntry) : List StrategyEntry :=
  spec.map fun s =>
    if isRoutableStrategy s then s
    else { strategy := "cacheFirst", paths := s.paths }

/-- Modelled from the spec: whether an entry's (already normalized) paths match a
request URL — a literal string matches the URL it equals, a list matches the URLs it
contains (spec sections 4.1 and 4.4).  The repository's router itself is not among the
examined sources. -/
def pathsMatchURL : Option PathsVal → String → Bool
  | none, _ => false
  | some (PathsVal.str p), url => p == url
  | some (PathsVal.arr l), url => l.contains url

/-- Modelled from the spec: the Strategy Router scans the plan in declaration order,
skips non-routable entries, and returns the first routable entry whose paths match the
request URL, or `none` if no entry matches (spec section 4.4).  The repository's router
itself is not among the examined sources. -/
def route (plan : List StrategyEntry) (url : String) : Option StrategyEntry :=
  plan.find? fun s => isRoutableStrategy s && pathsMatchURL s.paths url

/-!
### Heap-level model of the JS arrays

The functions above are pure over Lean lists, which would make "the input is not
mutated" vacuous.  To settle that claim against the source the same code is embedded
one level lower: every JS array of path strings is a reference into an explicit heap.
Per ECMA-262, `Array.prototype.filter`, `map` and `flat` allocate fresh arrays, while
`push` and `sort` mutate their receiver in place.  In the two functions under study
the only mutating calls — `push(...backupPaths)` and `sort()` — are made on the array
returned by `flat()`; the entry objects and the plan array are never the receiver of a
mutating operation, so they are carried as immutable values and the heap holds exactly
the string arrays.
-/

/-- The heap: address `i` holds the contents of the string array allocated `i`-th. -/
abbrev Heap := List (List String)

/-- A `paths` value at heap level: a plain string, or a reference to a string array. -/
inductive PathsRef where
  | str (s : String)
  | arr (r : Nat)
deriving DecidableEq

/-- A plan entry at heap level: same shape as `StrategyEntry`, but an array-valued
`paths` field is a heap reference. -/
structure EntryRef where
  strategy : String
  paths : Option PathsRef := none
  files : Option FilesSpec := none
  backup : Option String := none
deriving DecidableEq

/-- Dereference a string-array address. -/
def heapRead (h : Heap) (r : Nat) : List String := h.getD r []

/-- Guard `isCachePathOnInstall` over heap-level entries. -/
def isCachePathOnInstallR (s : EntryRef) : Bool :=
  s.strategy == "cache-on-install" && s.paths.isSome

/-- Guard `isCacheFileOnInstall` over heap-level entries. -/
def isCacheFileOnInstallR (s : EntryRef) : Bool :=
  s.strategy == "cache-on-install" && s.files.isSome

/-- JS truthiness of a heap-level `paths` value: an array reference is an object and
hence always truthy; `undefined` and `""` are falsy. -/
def truthyPathsR : Option PathsRef → Bool
  | none => false
  | some (PathsRef.str s) => !s.isEmpty
  | some (PathsRef.arr _) => true

/-- Guard `isStaticOfflineBackup` over heap-level entries. -/
def isStaticOfflineBackupR (s : EntryRef) : Bool :=
  s.strategy == "staticOfflineBackup" && truthyPathsR s.paths && truthyString s.backup

/-- One element's contribution under `flat()`, reading array contents from the heap. -/
def flatOneR (h : Heap) : PathsRef → List String
  | PathsRef.str s => [s]
  | PathsRef.arr r => heapRead h r

/-- Embeds `extractAllPreloadPaths` at heap level: `filter`/`map` build fresh intermediate
arrays, `flat()` allocates the `cacheOnInstallPaths` array as a fresh heap cell
(copying the contents of the referenced path arrays), then `push(...backupPaths)` and
`sort()` mutate that cell in place, and the reference to it is returned. -/
def extractAllPreloadPathsH (h : Heap) (plan : List EntryRef) : Heap × Nat :=
  let pathVals := (plan.filter isCachePathOnInstallR).map fun s =>
    s.paths.getD (PathsRef.str "")
  let r := h.length
  let h₁ := h ++ [(pathVals.map (flatOneR h)).flatten]
  let backups := (plan.filter isStaticOfflineBackupR).map fun s => s.backup.getD ""
  let h₂ := h₁.set r (heapRead h₁ r ++ backups)
  let h₃ := h₂.set r (@List.insertionSort String (fun a b => a ≤ b) strLE (heapRead h₂ r))
  (h₃, r)

/-- Embeds `convertPreloadFiles` at heap level: a files-based cache-on-install entry is
replaced by a fresh entry whose `paths` array is freshly allocated from the resolver's
output; every other entry passes through; nothing is written to an existing cell. -/
def convertPreloadFilesH (resolver : FilesSpec → Except String (List String))
    (h : Heap) (s : EntryRef) : Except String (Heap × EntryRef) :=
  if isCacheFileOnInstallR s then
    match resolver (s.files.getD ⟨"", "", ""⟩) with
    | Except.error e => Except.error e
    | Except.ok ps =>
      Except.ok (h ++ [ps],
        { strategy := "cache-on-install", paths := some (PathsRef.arr h.length) })
  else Except.ok (h, s)

/-- Embeds `convertAllFilesToPaths` at heap level: `spec.map(convertPreloadFiles)` threads the
heap left to right and builds a fresh output array; the first resolver exception aborts
the whole call. -/
def convertAllFilesToPathsH (resolver : FilesSpec → Except String (List String)) :
    Heap → List EntryRef → Except String (Heap × List EntryRef)
  | h, [] => Except.ok (h, [])
  | h, s :: rest =>
    match convertPreloadFilesH resolver h s with
    | Except.error e => Except.error e
    | Except.ok (h₁, s₁) =>
      match convertAllFilesToPathsH resolver h₁ rest with
      | Except.error e => Except.error e
      | Except.ok (h₂, out) => Except.ok (h₂, s₁ :: out)

/-!
### Theorems
-/

/-- The extractor's output is a permutation of the collected (pushed) array. -/
theorem extract_perm_collected (plan : List StrategyEntry) :
    (extractAllPreloadPaths plan).Perm (collectedPreloadPaths plan) :=
  @List.perm_insertionSort String (fun a b => a ≤ b) strLE (collectedPreloadPaths plan)

/-- The extractor's output is sorted in `String`'s lexicographic order. -/
theorem extract_sorted (plan : List StrategyEntry) :
    (extractAllPreloadPaths plan).Sorted (fun a b : String => a ≤ b) :=
  @List.sorted_insertionSort String (fun a b => a ≤ b) strLE _ _ (collectedPreloadPaths plan)

/-- C1 counterexample: a plan whose single cache-on-install entry lists `/a` twice
produces the output `[/a, /a]`, which contains a duplicate path string —
`extractAllPreloadPaths` sorts but never deduplicates. -/
theorem extractAllPreloadPaths_not_nodup :
    extractAllPreloadPaths
        [{ strategy := "cache-on-install", paths := some (PathsVal.arr ["/a", "/a"]) }]
      = ["/a", "/a"] ∧
    ¬ (extractAllPreloadPaths
        [{ strategy := "cache-on-install",
           paths := some (PathsVal.arr ["/a", "/a"]) }]).Nodup := by
  constructor
  · decide
  · decide

/-- C1 (amended): for every plan, `extractAllPreloadPaths` returns the concatenation of
the flattened paths of the cache-on-install entries (those having a `paths` field) with
the backups of the staticOfflineBackup entries accepted by the source's guard, sorted
lexicographically but not deduplicated: each path string occurs in the output exactly
as often as in the concatenation. -/
theorem extractAllPreloadPaths_count_sorted (plan : List StrategyEntry) (x : String) :
    (extractAllPreloadPaths plan).count x
        = (cacheOnInstallPathsOf plan).count x + (backupPathsOf plan).count x ∧
      (extractAllPreloadPaths plan).Sorted (fun a b : String => a ≤ b) := by
  refine ⟨?_, extract_sorted plan⟩
  have h := (extract_perm_collected plan).count_eq x
  simpa [collectedPreloadPaths, List.count_append] using h

/-- C7: `extractAllPreloadPaths` is order-independent — permuting the plan's entries
leaves the extracted output unchanged as a sequence. -/
theorem extractAllPreloadPaths_perm_invariant (plan₁ plan₂ : List StrategyEntry)
    (h : plan₁.Perm plan₂) :
    extractAllPreloadPaths plan₁ = extractAllPreloadPaths plan₂ := by
  have hcoi : (cacheOnInstallPathsOf plan₁).Perm (cacheOnInstallPathsOf plan₂) :=
    List.Perm.flatten (List.Perm.map _ (List.Perm.map _ (List.Perm.filter _ h)))
  have hbk : (backupPathsOf plan₁).Perm (backupPathsOf plan₂) :=
    List.Perm.map _ (List.Perm.filter _ h)
  have hcol : (collectedPreloadPaths plan₁).Perm (collectedPreloadPaths plan₂) :=
    List.Perm.append hcoi hbk
  exact List.eq_of_perm_of_sorted
    ((extract_perm_collected plan₁).trans (hcol.trans (extract_perm_collected plan₂).symm))
    (extract_sorted plan₁) (extract_sorted plan₂)

/-- C7 witness: swapping a cache-on-install entry and a staticOfflineBackup entry
leaves the extracted output unchanged. -/
theorem extractAllPreloadPaths_perm_invariant_witness :
    extractAllPreloadPaths
        [{ strategy := "cache-on-install", paths := some (PathsVal.arr ["/z", "/a"]) },
         { strategy := "staticOfflineBackup", paths := some (PathsVal.str "/p"),
           backup := some "/off.html" }]
      = extractAllPreloadPaths
        [{ strategy := "staticOfflineBackup", paths := some (PathsVal.str "/p"),
           backup := some "/off.html" },
         { strategy := "cache-on-install", paths := some (PathsVal.arr ["/z", "/a"]) }] :=
  extractAllPreloadPaths_perm_invariant _ _
    (List.Perm.swap _ _ _)

/-- C9: a cache-on-install entry whose `paths` field is a single string `p` (not an
array) contributes exactly the one element `p` to the extracted output: against the
same plan without that entry, the output gains exactly one occurrence of `p`. -/
theorem single_string_paths_contribution (p : String) (pre post : List StrategyEntry) :
    (extractAllPreloadPaths
        (pre ++ { strategy := "cache-on-install",
                  paths := some (PathsVal.str p) } :: post)).Perm
      (p :: extractAllPreloadPaths (pre ++ post)) := by
  have hpe : isCachePathOnInstall
      { strategy := "cache-on-install", paths := some (PathsVal.str p) } = true := by
    simp [isCachePathOnInstall]
  have hse : isStaticOfflineBackup
      { strategy := "cache-on-install", paths := some (PathsVal.str p) } = false := rfl
  have hco : cacheOnInstallPathsOf
        (pre ++ { strategy := "cache-on-install",
                  paths := some (PathsVal.str p) } :: post)
      = cacheOnInstallPathsOf pre ++ p :: cacheOnInstallPathsOf post := by
    simp [cacheOnInstallPathsOf, List.filter_append, List.filter_cons, hpe, flatOne]
  have hbk : backupPathsOf
        (pre ++ { strategy := "cache-on-install",
                  paths := some (PathsVal.str p) } :: post)
      = backupPathsOf pre ++ backupPathsOf post := by
    simp [backupPathsOf, List.filter_append, List.filter_cons, hse]
  have hc3 : cacheOnInstallPathsOf (pre ++ post)
      = cacheOnInstallPathsOf pre ++ cacheOnInstallPathsOf post := by
    simp [cacheOnInstallPathsOf, List.filter_append]
  have hc4 : backupPathsOf (pre ++ post)
      = backupPathsOf pre ++ backupPathsOf post := by
    simp [backupPathsOf, List.filter_append]
  have hmid : (collectedPreloadPaths
        (pre ++ { strategy := "cache-on-install",
                  paths := some (PathsVal.str p) } :: post)).Perm
      (p :: collectedPreloadPaths (pre ++ post)) := by
    unfold collectedPreloadPaths
    rw [hco, hbk, hc3, hc4]
    exact List.Perm.append_right _ List.perm_middle
  exact (extract_perm_collected _).trans
    (hmid.trans (((extract_perm_collected (pre ++ post)).symm).cons p))

/-- C3 counterexample: an entry with `strategy: 'staticOfflineBackup'`, the (falsy)
paths value `""` and backup `/offline.html` fails the source's truthiness guard
`!!s.paths`, so its backup is not collected: the output is empty. -/
theorem staticOfflineBackup_falsy_paths_drops_backup :
    extractAllPreloadPaths
        [{ strategy := "staticOfflineBackup", paths := some (PathsVal.str ""),
           backup := some "/offline.html" }] = [] ∧
      "/offline.html" ∉ extractAllPreloadPaths
        [{ strategy := "staticOfflineBackup", paths := some (PathsVal.str ""),
           backup := some "/offline.html" }] := by
  constructor <;> decide

/-- C3 (amended): the output of `extractAllPreloadPaths` contains the backup of every
entry whose strategy is `staticOfflineBackup` and whose `paths` and `backup` fields
are both truthy (paths present and not the empty string; backup a non-empty string) —
the quantification the source's guard `isStaticOfflineBackup` actually enforces. -/
theorem backup_mem_extractAllPreloadPaths (plan : List StrategyEntry)
    (e : StrategyEntry) (b : String) (he : e ∈ plan)
    (hs : e.strategy = "staticOfflineBackup") (hp : truthyPaths e.paths = true)
    (hb : e.backup = some b) (hbne : b ≠ "") :
    b ∈ extractAllPreloadPaths plan := by
  have hbe : b.isEmpty = false := by
    cases hbool : b.isEmpty
    · rfl
    · exact absurd ((String.isEmpty_iff b).mp hbool) hbne
  have hguard : isStaticOfflineBackup e = true := by
    simp [isStaticOfflineBackup, hs, hp, truthyString, hb, hbe]
  have hmem : e ∈ plan.filter isStaticOfflineBackup := List.mem_filter.mpr ⟨he, hguard⟩
  have hmb : b ∈ backupPathsOf plan := by
    unfold backupPathsOf
    refine List.mem_map.mpr ⟨e, hmem, ?_⟩
    simp [hb]
  have hcol : b ∈ collectedPreloadPaths plan := by
    unfold collectedPreloadPaths
    exact List.mem_append.mpr (Or.inr hmb)
  exact ((extract_perm_collected plan).mem_iff).mpr hcol

/-- C3 witness: a concrete staticOfflineBackup entry with truthy fields has its backup
in the extracted output. -/
theorem backup_mem_extractAllPreloadPaths_witness :
    "/down.html" ∈ extractAllPreloadPaths
      [{ strategy := "staticOfflineBackup", paths := some (PathsVal.str "/q"),
         backup := some "/down.html" }] :=
  backup_mem_extractAllPreloadPaths _
    { strategy := "staticOfflineBackup", paths := some (PathsVal.str "/q"),
      backup := some "/down.html" }
    "/down.html" (by decide) rfl (by decide) rfl (by decide)

/-- Splitting a successful `convertPreloadFiles`: either the entry passed the
files-based guard and was rebuilt from the resolver's output, or it failed the guard
and passed through unchanged. -/
theorem convertPreloadFiles_ok_cases (f : FilesSpec → Except String (List String))
    (a b : StrategyEntry) (h : convertPreloadFiles f a = Except.ok b) :
    (isCacheFileOnInstall a = true ∧
      ∃ fs ps, a.files = some fs ∧ f fs = Except.ok ps ∧ b = filesResolvedEntry ps) ∨
    (isCacheFileOnInstall a = false ∧ b = a) := by
  cases hc : isCacheFileOnInstall a with
  | false =>
    right
    simp [convertPreloadFiles, hc] at h
    exact ⟨rfl, h.symm⟩
  | true =>
    left
    refine ⟨rfl, ?_⟩
    cases hfs : a.files with
    | none => simp [isCacheFileOnInstall, hfs] at hc
    | some fs =>
      simp only [convertPreloadFiles, hc, if_true, convertPreloadFilesToPaths, hfs,
        Option.getD_some] at h
      cases hres : f fs with
      | error e => simp [hres] at h
      | ok ps =>
        simp only [hres] at h
        cases h
        exact ⟨fs, ps, rfl, hres, rfl⟩

/-- A successful `mapExcept` relates input and output pointwise, in order. -/
theorem mapExcept_ok_forall₂ {α β ε : Type} (g : α → Except ε β) (l : List α)
    (out : List β) (h : mapExcept g l = Except.ok out) :
    List.Forall₂ (fun a b => g a = Except.ok b) l out := by
  induction l generalizing out with
  | nil =>
    simp only [mapExcept] at h
    cases h
    exact List.Forall₂.nil
  | cons a as ih =>
    simp only [mapExcept] at h
    cases hga : g a with
    | error e => simp [hga] at h
    | ok b =>
      simp only [hga] at h
      cases hrest : mapExcept g as with
      | error e => simp [hrest] at h
      | ok bs =>
        simp only [hrest] at h
        cases h
        exact List.Forall₂.cons hga (ih bs hrest)

/-- Running `mapExcept` with a callback that fixes every element of a list returns that list. -/
theorem mapExcept_fixed {α ε : Type} (g : α → Except ε α) (l : List α)
    (h : ∀ b ∈ l, g b = Except.ok b) : mapExcept g l = Except.ok l := by
  induction l with
  | nil => rfl
  | cons a as ih =>
    simp only [mapExcept, h a (List.mem_cons_self a as),
      ih fun b hb => h b (List.mem_cons_of_mem a hb)]

/-- C4 counterexample: a cache-on-install entry with both `paths` and `files` set is
not rejected — normalization succeeds, treats it as a files-spec entry and silently
discards its `paths` field. -/
theorem both_fields_entry_not_rejected :
    convertAllFilesToPaths (fun _ => Except.ok ["/dist/a.js"])
        [{ strategy := "cache-on-install", paths := some (PathsVal.arr ["/p.css"]),
           files := some ⟨"dist", "*.js", "/"⟩ }]
      = Except.ok
          [{ strategy := "cache-on-install",
             paths := some (PathsVal.arr ["/dist/a.js"]) }] := by
  rfl

/-- C4 (amended): an entry with both mutually exclusive fields set is silently
processed: `convertPreloadFiles` treats it as a files-spec entry, replaces it with the
glob-resolved path entry, and discards the original `paths`; no error is raised. -/
theorem both_fields_processed_without_error (f : FilesSpec → Except String (List String))
    (s : StrategyEntry) (fs : FilesSpec) (ps : List String)
    (hstrat : s.strategy = "cache-on-install") (_hpaths : s.paths.isSome = true)
    (hfiles : s.files = some fs) (hres : f fs = Except.ok ps) :
    convertPreloadFiles f s = Except.ok (filesResolvedEntry ps) := by
  have hc : isCacheFileOnInstall s = true := by simp [isCacheFileOnInstall, hstrat, hfiles]
  simp [convertPreloadFiles, hc, convertPreloadFilesToPaths, hfiles, hres]

/-- C4 witness: a concrete entry with both fields set is processed without error and
its `paths` field discarded. -/
theorem both_fields_processed_without_error_witness :
    convertPreloadFiles (fun _ => Except.ok ["/dist/b.js"])
        { strategy := "cache-on-install", paths := some (PathsVal.str "/q.css"),
          files := some ⟨"dist", "*.js", "/x"⟩ }
      = Except.ok (filesResolvedEntry ["/dist/b.js"]) :=
  both_fields_processed_without_error _ _ ⟨"dist", "*.js", "/x"⟩ ["/dist/b.js"]
    rfl rfl rfl rfl

/-- C5: a successful normalization maps each files-based cache-on-install entry to the
path entry built from exactly the resolver's output for its files-spec, passes every
other entry through unchanged, and preserves length and declaration order. -/
theorem convertAllFilesToPaths_pointwise (f : FilesSpec → Except String (List String))
    (plan out : List StrategyEntry)
    (h : convertAllFilesToPaths f plan = Except.ok out) :
    plan.length = out.length ∧
      List.Forall₂ (fun a b =>
        (isCacheFileOnInstall a = true →
          ∃ fs ps, a.files = some fs ∧ f fs = Except.ok ps ∧ b = filesResolvedEntry ps) ∧
        (isCacheFileOnInstall a = false → b = a)) plan out := by
  have hfa := mapExcept_ok_forall₂ (convertPreloadFiles f) plan out h
  refine ⟨hfa.length_eq, List.Forall₂.imp ?_ hfa⟩
  intro a b hab
  rcases convertPreloadFiles_ok_cases f a b hab with ⟨hc, fs, ps, h1, h2, h3⟩ | ⟨hc, hb⟩
  · exact ⟨fun _ => ⟨fs, ps, h1, h2, h3⟩, fun hf => nomatch hf.symm.trans hc⟩
  · exact ⟨fun hf => (nomatch hf.symm.trans hc), fun _ => hb⟩

/-- C5 witness: a concrete two-entry plan normalizes pointwise with its length kept. -/
theorem convertAllFilesToPaths_pointwise_witness :
    convertAllFilesToPaths (fun _ => Except.ok ["/img/a.png"])
        [{ strategy := "cache-on-install", files := some ⟨"img", "*.png", "/img"⟩ },
         { strategy := "networkFirst", paths := some (PathsVal.str "/d.json") }]
      = Except.ok [filesResolvedEntry ["/img/a.png"],
          { strategy := "networkFirst", paths := some (PathsVal.str "/d.json") }] ∧
      ([{ strategy := "cache-on-install", files := some ⟨"img", "*.png", "/img"⟩ },
        { strategy := "networkFirst",
          paths := some (PathsVal.str "/d.json") }] : List StrategyEntry).length
        = ([filesResolvedEntry ["/img/a.png"],
            { strategy := "networkFirst",
              paths := some (PathsVal.str "/d.json") }] : List StrategyEntry).length :=
  ⟨rfl, (convertAllFilesToPaths_pointwise (fun _ => Except.ok ["/img/a.png"])
    [{ strategy := "cache-on-install", files := some ⟨"img", "*.png", "/img"⟩ },
     { strategy := "networkFirst", paths := some (PathsVal.str "/d.json") }]
    [filesResolvedEntry ["/img/a.png"],
     { strategy := "networkFirst", paths := some (PathsVal.str "/d.json") }] rfl).1⟩

/-- C6: if the glob resolver raises for some files-spec entry of the plan, the whole
normalization raises — no partial normalized plan is produced. -/
theorem convertAllFilesToPaths_error_of_resolver_error
    (f : FilesSpec → Except String (List String)) (plan : List StrategyEntry)
    (e : StrategyEntry) (fs : FilesSpec) (msg : String) (he : e ∈ plan)
    (hstrat : e.strategy = "cache-on-install") (hfs : e.files = some fs)
    (herr : f fs = Except.error msg) :
    ∃ m, convertAllFilesToPaths f plan = Except.error m := by
  induction plan with
  | nil => cases he
  | cons a as ih =>
    rcases List.mem_cons.mp he with rfl | hmem
    · have hc : isCacheFileOnInstall e = true := by
        simp [isCacheFileOnInstall, hstrat, hfs]
      have hone : convertPreloadFiles f e = Except.error msg := by
        simp [convertPreloadFiles, hc, convertPreloadFilesToPaths, hfs, herr]
      exact ⟨msg, by simp [convertAllFilesToPaths, mapExcept, hone]⟩
    · cases hfa : convertPreloadFiles f a with
      | error m => exact ⟨m, by simp [convertAllFilesToPaths, mapExcept, hfa]⟩
      | ok b =>
        obtain ⟨m, hm⟩ := ih hmem
        have hm' : mapExcept (convertPreloadFiles f) as = Except.error m := hm
        exact ⟨m, by simp [convertAllFilesToPaths, mapExcept, hfa, hm']⟩

/-- C6 witness: a concrete plan whose second entry's files-spec makes the resolver
raise leaves normalization with an error and no result. -/
theorem convertAllFilesToPaths_error_of_resolver_error_witness :
    ∃ m, convertAllFilesToPaths (fun _ => Except.error "ENOENT")
        [{ strategy := "networkOnly", paths := some (PathsVal.str "/api") },
         { strategy := "cache-on-install", files := some ⟨"gone", "*.css", "/"⟩ }]
      = Except.error m :=
  convertAllFilesToPaths_error_of_resolver_error _ _
    { strategy := "cache-on-install", files := some ⟨"gone", "*.css", "/"⟩ }
    ⟨"gone", "*.css", "/"⟩ "ENOENT" (by decide) rfl rfl rfl

/-- An output entry of a successful `convertPreloadFiles` is a fixed point of it. -/
theorem convertPreloadFiles_output_fixed (f : FilesSpec → Except String (List String))
    (a b : StrategyEntry) (h : convertPreloadFiles f a = Except.ok b) :
    convertPreloadFiles f b = Except.ok b := by
  rcases convertPreloadFiles_ok_cases f a b h with ⟨-, fs, ps, -, -, hb⟩ | ⟨hc, hb⟩
  · subst hb
    simp [convertPreloadFiles, isCacheFileOnInstall, filesResolvedEntry]
  · subst hb
    simp [convertPreloadFiles, hc]

/-- C10: normalization is idempotent — every entry of a successful output fails the
`isCacheFileOnInstall` test, so a second application passes the whole output through
unchanged. -/
theorem convertAllFilesToPaths_idempotent (f : FilesSpec → Except String (List String))
    (plan out : List StrategyEntry)
    (h : convertAllFilesToPaths f plan = Except.ok out) :
    convertAllFilesToPaths f out = Except.ok out := by
  have hfa := mapExcept_ok_forall₂ (convertPreloadFiles f) plan out h
  have hfix : ∀ b ∈ out, convertPreloadFiles f b = Except.ok b := by
    clear h
    induction hfa with
    | nil => intro b hb; cases hb
    | cons hab _ ih =>
      intro b hb
      rcases List.mem_cons.mp hb with rfl | hb'
      · exact convertPreloadFiles_output_fixed f _ _ hab
      · exact ih b hb'
  exact mapExcept_fixed _ out hfix

/-- C10 witness: applying normalization a second time to a concrete normalized plan
returns it unchanged. -/
theorem convertAllFilesToPaths_idempotent_witness :
    convertAllFilesToPaths (fun _ => Except.ok ["/f/a.woff"])
        [filesResolvedEntry ["/f/a.woff"]]
      = Except.ok [filesResolvedEntry ["/f/a.woff"]] :=
  convertAllFilesToPaths_idempotent (fun _ => Except.ok ["/f/a.woff"])
    [{ strategy := "cache-on-install", files := some ⟨"f", "*.woff", "/f"⟩ }]
    [filesResolvedEntry ["/f/a.woff"]] rfl

/-- C2 counterexample: a request URL matching only a cache-on-install entry's paths is
not interposed by the router over the raw plan, but the pipeline converts that entry
into a routable `cacheFirst` entry, and routing the converted plan selects it — the
request does not fall through to default network handling. -/
theorem cacheOnInstall_match_is_interposed :
    route [{ strategy := "cache-on-install", paths := some (PathsVal.str "/only.css") }]
        "/only.css" = none ∧
      route (convertPreloadPathsToCacheFirst
          [{ strategy := "cache-on-install", paths := some (PathsVal.str "/only.css") }])
          "/only.css"
        = some { strategy := "cacheFirst", paths := some (PathsVal.str "/only.css") } := by
  constructor <;> rfl

/-- C2 (amended): cacheOnInstall entries are not themselves routable — the router never
selects an entry failing `isRoutableStrategy` — but `convertPreloadPathsToCacheFirst`
turns every non-routable entry into a routable `cacheFirst` entry with the same paths,
so a request matching a cacheOnInstall entry's paths is served cache-first by the
converted plan rather than receiving no worker interposition. -/
theorem route_nonroutable_conversion (plan : List StrategyEntry) (url : String) :
    (∀ r, route plan url = some r → isRoutableStrategy r = true) ∧
      ∀ s ∈ plan, isRoutableStrategy s = false →
        ({ strategy := "cacheFirst", paths := s.paths : StrategyEntry }
            ∈ convertPreloadPathsToCacheFirst plan ∧
          isRoutableStrategy { strategy := "cacheFirst", paths := s.paths } = true) := by
  constructor
  · intro r hr
    have h2 := List.find?_some hr
    simp only [Bool.and_eq_true] at h2
    exact h2.1
  · intro s hs hnr
    constructor
    · refine List.mem_map.mpr ⟨s, hs, ?_⟩
      simp [hnr]
    · rfl

/-- C2 witness: the conversion of a concrete cache-on-install entry is in the converted
plan and is routable. -/
theorem route_nonroutable_conversion_witness :
    ({ strategy := "cacheFirst", paths := some (PathsVal.str "/w.css") } : StrategyEntry)
        ∈ convertPreloadPathsToCacheFirst
            [{ strategy := "cache-on-install", paths := some (PathsVal.str "/w.css") }] ∧
      isRoutableStrategy
        { strategy := "cacheFirst", paths := some (PathsVal.str "/w.css") } = true :=
  (route_nonroutable_conversion
      [{ strategy := "cache-on-install", paths := some (PathsVal.str "/w.css") }]
      "/w.css").2
    { strategy := "cache-on-install", paths := some (PathsVal.str "/w.css") }
    (by decide) (by decide)

/-- Frame property of the heap-level extractor: every pre-existing array is unchanged
(the two in-place writes hit only the array freshly allocated by `flat()`). -/
theorem extractAllPreloadPathsH_frame (h : Heap) (plan : List EntryRef) (i : Nat)
    (hi : i < h.length) :
    heapRead (extractAllPreloadPathsH h plan).1 i = heapRead h i := by
  have hne : h.length ≠ i := fun he => absurd he.symm (Nat.ne_of_lt hi)
  simp only [extractAllPreloadPathsH, heapRead, List.getD_eq_getElem?_getD]
  rw [List.getElem?_set_ne hne, List.getElem?_set_ne hne, List.getElem?_append_left hi]

/-- Frame property of one heap-level conversion step: the heap only grows, and every
pre-existing array is unchanged. -/
theorem convertPreloadFilesH_frame (resolver : FilesSpec → Except String (List String))
    (h : Heap) (s : EntryRef) (h₁ : Heap) (s₁ : EntryRef)
    (hok : convertPreloadFilesH resolver h s = Except.ok (h₁, s₁)) :
    h.length ≤ h₁.length ∧ ∀ i < h.length, heapRead h₁ i = heapRead h i := by
  unfold convertPreloadFilesH at hok
  cases hc : isCacheFileOnInstallR s with
  | false =>
    simp only [hc, Bool.false_eq_true, if_false] at hok
    cases hok
    exact ⟨Nat.le_refl _, fun i _ => rfl⟩
  | true =>
    simp only [hc, if_true] at hok
    cases hres : resolver (s.files.getD ⟨"", "", ""⟩) with
    | error e => simp [hres] at hok
    | ok ps =>
      simp only [hres] at hok
      cases hok
      refine ⟨by simp, fun i hi => ?_⟩
      simp only [heapRead, List.getD_eq_getElem?_getD]
      rw [List.getElem?_append_left hi]

/-- Frame property of the heap-level normalization: on success the heap only grows,
and every pre-existing array is unchanged. -/
theorem convertAllFilesToPathsH_frame (resolver : FilesSpec → Except String (List String))
    (plan : List EntryRef) :
    ∀ (h h₂ : Heap) (out : List EntryRef),
      convertAllFilesToPathsH resolver h plan = Except.ok (h₂, out) →
        h.length ≤ h₂.length ∧ ∀ i < h.length, heapRead h₂ i = heapRead h i := by
  induction plan with
  | nil =>
    intro h h₂ out hok
    simp only [convertAllFilesToPathsH] at hok
    cases hok
    exact ⟨Nat.le_refl _, fun i _ => rfl⟩
  | cons s rest ih =>
    intro h h₂ out hok
    simp only [convertAllFilesToPathsH] at hok
    cases hstep : convertPreloadFilesH resolver h s with
    | error e => simp [hstep] at hok
    | ok p =>
      obtain ⟨h₁, s₁⟩ := p
      simp only [hstep] at hok
      cases hrest : convertAllFilesToPathsH resolver h₁ rest with
      | error e => simp [hrest] at hok
      | ok q =>
        obtain ⟨hA, hB⟩ := q
        simp only [hrest] at hok
        have hpair : (hA, s₁ :: hB) = (h₂, out) := Except.ok.inj hok
        have hh : hA = h₂ := congrArg Prod.fst hpair
        subst hh
        obtain ⟨hlen1, hframe1⟩ := convertPreloadFilesH_frame resolver h s h₁ s₁ hstep
        obtain ⟨hlen2, hframe2⟩ := ih h₁ hA hB hrest
        refine ⟨Nat.le_trans hlen1 hlen2, fun i hi => ?_⟩
        rw [hframe2 i (Nat.lt_of_lt_of_le hi hlen1), hframe1 i hi]

/-- C8: neither function mutates its input.  At heap level: every string array that
existed before the call reads back unchanged afterwards (so the input entries' `paths`
arrays, and with them the input plan's entries, are intact), the extractor's result is
a freshly allocated array rather than an alias of any input array, and normalization
threads the heap without writing to any existing cell while returning a new entry
sequence. -/
theorem extract_convert_no_mutation (resolver : FilesSpec → Except String (List String))
    (h : Heap) (plan : List EntryRef) (i : Nat) (hi : i < h.length) :
    heapRead (extractAllPreloadPathsH h plan).1 i = heapRead h i ∧
      (extractAllPreloadPathsH h plan).2 = h.length ∧
      ∀ h₂ out, convertAllFilesToPathsH resolver h plan = Except.ok (h₂, out) →
        heapRead h₂ i = heapRead h i :=
  ⟨extractAllPreloadPathsH_frame h plan i hi, rfl,
   fun h₂ out hok => (convertAllFilesToPathsH_frame resolver plan h h₂ out hok).2 i hi⟩

/-- C8 witness: on a concrete one-array heap and a two-entry plan, the pre-existing
array reads back unchanged after extraction and after normalization, and the
extractor's result address is the fresh one. -/
theorem extract_convert_no_mutation_witness :
    0 < ([["/pre.css"]] : Heap).length ∧
      heapRead (extractAllPreloadPathsH [["/pre.css"]]
          [{ strategy := "cache-on-install", paths := some (PathsRef.arr 0) },
           { strategy := "cache-on-install", files := some ⟨"g", "*.js", "/g"⟩ }]).1 0
        = heapRead [["/pre.css"]] 0 ∧
      (extractAllPreloadPathsH [["/pre.css"]]
          [{ strategy := "cache-on-install", paths := some (PathsRef.arr 0) },
           { strategy := "cache-on-install", files := some ⟨"g", "*.js", "/g"⟩ }]).2 = 1 ∧
      heapRead [["/pre.css"], ["/g/a.js"]] 0 = heapRead [["/pre.css"]] 0 :=
  ⟨by decide,
   (extract_convert_no_mutation (fun _ => Except.ok ["/g/a.js"]) [["/pre.css"]]
      [{ strategy := "cache-on-install", paths := some (PathsRef.arr 0) },
       { strategy := "cache-on-install", files := some ⟨"g", "*.js", "/g"⟩ }]
      0 (by decide)).1,
   (extract_convert_no_mutation (fun _ => Except.ok ["/g/a.js"]) [["/pre.css"]]
      [{ strategy := "cache-on-install", paths := some (PathsRef.arr 0) },
       { strategy := "cache-on-install", files := some ⟨"g", "*.js", "/g"⟩ }]
      0 (by decide)).2.1,
   (extract_convert_no_mutation (fun _ => Except.ok ["/g/a.js"]) [["/pre.css"]]
      [{ strategy := "cache-on-install", paths := some (PathsRef.arr 0) },
       { strategy := "cache-on-install", files := some ⟨"g", "*.js", "/g"⟩ }]
      0 (by decide)).2.2 [["/pre.css"], ["/g/a.js"]]
      [{ strategy := "cache-on-install", paths := some (PathsRef.arr 0) },
       { strategy := "cache-on-install", paths := some (PathsRef.arr 1) }] (by rfl)⟩
